import Mathlib

/-!
Shallow embedding of the pagination/collection core of `src/app.py`
(`scrape_unsplash`, lines 47-116) of the UnsplashScraper repository,
together with theorems about the properties of the collector.

The collector drives repeated page fetches, decodes each page's result
list, filters and deduplicates candidate records, accumulates accepted
records, and decides when to stop.  The embedding models one run of
`scrape_unsplash` as a function of the sequence of outcomes of the
successive page fetches (the network being external input).
-/

namespace Unsplash

/-- One raw candidate object of a page's `results` list, as decoded from
JSON.  Each field the Python code accesses is modelled as an `Option`:
`none` means the key is absent from the payload (so that the
corresponding dictionary access `result['...']` raises `KeyError`).
The nested `urls` dictionary accesses `result['urls']['regular' | 'full'
| 'raw']` are flattened into three optional fields; a missing `urls` key
behaves like all three being absent, which is observationally the same
(an exception either way). -/
structure Candidate where
  id : Option String
  urls_regular : Option String
  urls_full : Option String
  urls_raw : Option String
  width : Option Int
  height : Option Int
  alt_description : Option String
  color : Option String
  likes : Option Int
deriving DecidableEq

/-- The dictionary appended to `images` for an accepted candidate
(src/app.py lines 89-99). -/
structure ImageRecord where
  id : String
  url : String
  full_url : String
  raw_url : String
  width : Int
  height : Int
  alt : String
  color : String
  likes : Int
deriving DecidableEq

/-- Outcome of one iteration's fetch+decode (src/app.py lines 70-74):
`err` models an exception from `requests.get`, `raise_for_status` or
`response.json()` (transport error, non-2xx status, or undecodable
body); `page p` models a successfully decoded JSON payload, where
`p = none` stands for a falsy payload or one with no `results` key and
`p = some l` for a payload whose `results` list is `l`. -/
inductive PageOutcome where
  | err : PageOutcome
  | page : Option (List Candidate) → PageOutcome
deriving DecidableEq

/-- Why the `while` loop of `scrape_unsplash` terminated.  The Python
code leaves this implicit in which `break` (or failure of the loop
condition) ended the loop; the embedding records it as a ghost
observable.  `cap`: `len(images) < max_results` became false.
`emptyPage`: the `break` at line 75.  `exhaustion`: the `break` at line
105 (`new_images == 0`).  `error`: the `break` in the `except` handler
at line 113.  `outOfPages`: the supplied list of fetch outcomes was
exhausted while the loop would have kept fetching (an artifact of
modelling the network as a finite list; the real loop would fetch
again). -/
inductive StopReason where
  | cap : StopReason
  | emptyPage : StopReason
  | exhaustion : StopReason
  | error : StopReason
  | outOfPages : StopReason
deriving DecidableEq

/-- State after running the `for result in data['results']` loop on (a
suffix of) one page: the accumulated `images`, the `seen_ids` set
(modelled as a list), the page's `new_images` counter, and whether the
loop was aborted by an exception (a missing field on a candidate),
which the outer `except` handler turns into termination of the run. -/
structure PageResult where
  images : List ImageRecord
  seen : List String
  new_images : Nat
  errored : Bool
deriving DecidableEq

/-- Result of a run: the returned `images` list plus the ghost
observables of the final `seen_ids` state, the stop reason, and the
number of fetches performed. -/
structure ScrapeResult where
  images : List ImageRecord
  seen : List String
  stop : StopReason
  consumed : Nat
deriving DecidableEq

/-- How the body of the `for` loop (src/app.py lines 79-99) treats a
single candidate, before the cap check at lines 101-102:
`dup`: its id is already in `seen_ids` (line 80-81, `continue`);
`rejected i`: id `i` was added to `seen_ids` and then the dimension
filter discarded it (lines 83-87, `continue` — note the Python `or`
short-circuits, so if `width < min_width` the `height` key is never
read); `accepted i r`: id `i` was added to `seen_ids`, the filter
passed, and record `r` was built and appended (lines 89-99);
`failed`: the `result['id']` access raised (line 79) before anything
was recorded; `failedSeen i`: id `i` was added to `seen_ids` and then
a later field access raised (line 86 or lines 89-98). -/
inductive CandStep where
  | dup : CandStep
  | rejected : String → CandStep
  | accepted : String → ImageRecord → CandStep
  | failed : CandStep
  | failedSeen : String → CandStep
deriving DecidableEq

/-- Dispatch of one candidate, following src/app.py lines 79-99. -/
def candStep (min_width min_height : Int) (seen : List String) (c : Candidate) : CandStep :=
  match c.id with
  | none => .failed
  | some i =>
    if i ∈ seen then .dup
    else
      match c.width with
      | none => .failedSeen i
      | some w =>
        if w < min_width then .rejected i
        else
          match c.height with
          | none => .failedSeen i
          | some h =>
            if h < min_height then .rejected i
            else
              match c.urls_regular, c.urls_full, c.urls_raw, c.color, c.likes with
              | some u, some fu, some ru, some co, some lk =>
                .accepted i ⟨i, u, fu, ru, w, h, c.alt_description.getD "", co, lk⟩
              | _, _, _, _, _ => .failedSeen i

/-- The `for result in data['results']` loop of `scrape_unsplash`
(src/app.py lines 77-102), processing the candidates of one page in
order from state (`images`, `seen`, `new_images = n`).  An accepted
record is appended and, if `len(images) >= max_results` then holds, the
loop breaks immediately (lines 101-102), leaving the remaining
candidates unprocessed.  A missing field aborts with `errored = true`
(the exception propagates to the `except` handler of the `while`
loop). -/
def processResults (min_width min_height : Int) (max_results : Nat) :
    List Candidate → List ImageRecord → List String → Nat → PageResult
  | [], images, seen, n => ⟨images, seen, n, false⟩
  | c :: rest, images, seen, n =>
    match candStep min_width min_height seen c with
    | .dup => processResults min_width min_height max_results rest images seen n
    | .rejected i => processResults min_width min_height max_results rest images (i :: seen) n
    | .accepted i r =>
      if max_results ≤ (images ++ [r]).length then ⟨images ++ [r], i :: seen, n + 1, false⟩
      else processResults min_width min_height max_results rest (images ++ [r]) (i :: seen) (n + 1)
    | .failed => ⟨images, seen, n, true⟩
    | .failedSeen i => ⟨images, i :: seen, n, true⟩

/-- The `while len(images) < max_results` loop of `scrape_unsplash`
(src/app.py lines 67-113), driven by the list of fetch outcomes for
pages 1, 2, ...  Mirrors the Python control flow: check the loop
condition; fetch (an exception stops the run with the partial
`images`); check for a missing/empty `results` list (line 74-75);
process the page's candidates; an exception during processing stops the
run keeping what the page appended so far; `new_images == 0` stops the
run (lines 104-105); otherwise continue with the next page. -/
def scrapeLoop (min_width min_height : Int) (max_results : Nat) :
    List PageOutcome → List ImageRecord → List String → ScrapeResult
  | [], images, seen =>
    if max_results ≤ images.length then ⟨images, seen, .cap, 0⟩
    else ⟨images, seen, .outOfPages, 0⟩
  | p :: rest, images, seen =>
    if max_results ≤ images.length then ⟨images, seen, .cap, 0⟩
    else
      match p with
      | .err => ⟨images, seen, .error, 1⟩
      | .page none => ⟨images, seen, .emptyPage, 1⟩
      | .page (some []) => ⟨images, seen, .emptyPage, 1⟩
      | .page (some (c :: cs)) =>
        let pr := processResults min_width min_height max_results (c :: cs) images seen 0
        if pr.errored then ⟨pr.images, pr.seen, .error, 1⟩
        else if pr.new_images = 0 then ⟨pr.images, pr.seen, .exhaustion, 1⟩
        else
          let r := scrapeLoop min_width min_height max_results rest pr.images pr.seen
          ⟨r.images, r.seen, r.stop, r.consumed + 1⟩

/-- The caller-controlled parameters of `scrape_unsplash` that affect
the collection logic.  The `search_term`, `orientation` and `color`
parameters only shape the HTTP request, which the embedding abstracts
into the list of fetch outcomes, so they are omitted. -/
structure ScrapeConfig where
  min_width : Int
  min_height : Int
  max_results : Nat
deriving DecidableEq

/-- One run of `scrape_unsplash` (src/app.py lines 47-116) given the
sequence of fetch outcomes: run the while loop from the empty state and
return `images[:max_results]` (line 116) together with the ghost
observables. -/
def scrape_unsplash (cfg : ScrapeConfig) (pages : List PageOutcome) : ScrapeResult :=
  let r := scrapeLoop cfg.min_width cfg.min_height cfg.max_results pages [] []
  { r with images := r.images.take cfg.max_results }

/-- The candidates a fetch outcome contributes: the decoded `results`
list for a successful page, nothing for a failed fetch or a payload
without results. -/
def pageCands : PageOutcome → List Candidate
  | .err => []
  | .page none => []
  | .page (some l) => l

/-- Concatenation, in fetch order, of the candidates of a list of
fetch outcomes. -/
def streamOf : List PageOutcome → List Candidate
  | [] => []
  | p :: rest => pageCands p ++ streamOf rest

/-- The `seen_ids` state after scanning a candidate list from `seen`:
every id that occurs on a candidate and was not seen before gets
recorded.  This mirrors how `scrape_unsplash` grows `seen_ids` on a
fully processed, exception-free page. -/
def markSeen (seen : List String) : List Candidate → List String
  | [] => seen
  | c :: rest =>
    match c.id with
    | none => markSeen seen rest
    | some i => if i ∈ seen then markSeen seen rest else markSeen (i :: seen) rest

/-- Count, over a candidate list scanned from `seen`, of the distinct,
previously-unseen, dimension-passing candidates (the spec's "cumulative
unique qualifying records"): a candidate counts when it carries an id
not seen before and its width and height are present and pass the
minimum-dimension filter; every previously-unseen id is recorded as
seen either way. -/
def newQualifyingCount (min_width min_height : Int) (seen : List String) :
    List Candidate → Nat
  | [] => 0
  | c :: rest =>
    match c.id with
    | none => newQualifyingCount min_width min_height seen rest
    | some i =>
      if i ∈ seen then newQualifyingCount min_width min_height seen rest
      else
        match c.width with
        | none => newQualifyingCount min_width min_height (i :: seen) rest
        | some w =>
          if w < min_width then newQualifyingCount min_width min_height (i :: seen) rest
          else
            match c.height with
            | none => newQualifyingCount min_width min_height (i :: seen) rest
            | some h =>
              if h < min_height then newQualifyingCount min_width min_height (i :: seen) rest
              else 1 + newQualifyingCount min_width min_height (i :: seen) rest

/-- The ids of a candidate list in first-seen order, scanning from
`seen`: each id not seen before is listed at the position of its first
occurrence. -/
def firstSeenIds (seen : List String) : List Candidate → List String
  | [] => []
  | c :: rest =>
    match c.id with
    | none => firstSeenIds seen rest
    | some i => if i ∈ seen then firstSeenIds seen rest else i :: firstSeenIds (i :: seen) rest

/-- Whether the dimension filter of src/app.py line 86 discards this
candidate, i.e. whether the candidate takes the `continue` at line 87:
its width is present and below the minimum, or its width is present and
large enough and its height is present and below the minimum (the
Python `or` short-circuits, so a missing height with a too-small width
still counts as a plain rejection, not an exception). -/
def dimRejected (min_width min_height : Int) (c : Candidate) : Bool :=
  match c.width with
  | none => false
  | some w =>
    if w < min_width then true
    else
      match c.height with
      | none => false
      | some h => decide (h < min_height)

/-- Whether the first candidate of the list carrying id `i` is
discarded by the dimension filter. -/
def firstOccDimRejected (min_width min_height : Int) :
    List Candidate → String → Bool
  | [], _ => false
  | c :: rest, i =>
    if c.id = some i then dimRejected min_width min_height c
    else firstOccDimRejected min_width min_height rest i

/-! ### Concrete data used in counterexamples and witnesses -/

/-- A fully populated candidate with id `i`, all string payload fields
`u`, dimensions `w` by `hv`, and 3 likes. -/
def fullCand (i u : String) (w hv : Int) : Candidate :=
  ⟨some i, some u, some u, some u, some w, some hv, some u, some u, some 3⟩

/-- A candidate whose `likes` key is missing but that is otherwise
complete. -/
def noLikesCand (i u : String) (w hv : Int) : Candidate :=
  ⟨some i, some u, some u, some u, some w, some hv, some u, some u, none⟩

/-- A candidate that passes the dimension filter but carries no `urls`
payload (and none of the other optional decoration fields). -/
def noUrlsCand (i : String) (w hv : Int) : Candidate :=
  ⟨some i, none, none, none, some w, some hv, none, none, none⟩

/-- A candidate missing only `alt_description`. -/
def noAltCand (i u : String) (w hv : Int) : Candidate :=
  ⟨some i, some u, some u, some u, some w, some hv, none, some u, some 3⟩

/-- The page list of the `C1` counterexample: one page holding a
qualifying candidate and then a dimension-passing candidate whose
`urls` are missing. -/
def c1pages : List PageOutcome :=
  [PageOutcome.page (some [fullCand "a" "u" 10 10, noUrlsCand "b" 10 10])]

/-- The page list of the `C1` witness: one page with three qualifying
candidates. -/
def c1wpages : List PageOutcome :=
  [PageOutcome.page (some [fullCand "a" "u" 10 10])]

/-- The page list of the `C2` witness: one candidate rejected by the
dimension filter followed by one accepted candidate. -/
def c2wpages : List PageOutcome :=
  [PageOutcome.page (some [fullCand "s" "u" 50 50, fullCand "t" "u" 500 500])]

/-- The page list of the `C3` counterexample: page 1 holds one
previously-unseen candidate that fails the 100x100 dimension filter;
page 2 holds a fresh qualifying candidate. -/
def c3pages : List PageOutcome :=
  [PageOutcome.page (some [fullCand "s" "u" 50 50]),
    PageOutcome.page (some [fullCand "t" "u" 500 500])]

/-- Page 1 of the `C4` counterexample: a good candidate, a candidate
with no `likes` key, and another good candidate. -/
def c4badPage : List Candidate :=
  [fullCand "a" "u" 10 10, noLikesCand "b" "u" 10 10, fullCand "c" "u" 10 10]

/-- The page list of the `C4` counterexample. -/
def c4pages : List PageOutcome :=
  [PageOutcome.page (some c4badPage), PageOutcome.page (some [fullCand "d" "u" 10 10])]

/-- The record accepted from `fullCand "a" "u" 10 10`. -/
def c7rec : ImageRecord := ⟨"a", "u", "u", "u", 10, 10, "u", "u", 3⟩

/-! ### Inversion lemmas for `candStep` -/

theorem candStep_eq_dup {mw mh : Int} {seen : List String} {c : Candidate}
    (h : candStep mw mh seen c = CandStep.dup) : ∃ i, c.id = some i ∧ i ∈ seen := by
  unfold candStep at h
  split at h
  · exact absurd h (by simp)
  · next i hid =>
    split at h
    · exact ⟨i, hid, by assumption⟩
    · split at h
      · exact absurd h (by simp)
      · split at h
        · exact absurd h (by simp)
        · split at h
          · exact absurd h (by simp)
          · split at h
            · exact absurd h (by simp)
            · split at h <;> exact absurd h (by simp)

theorem candStep_eq_failed {mw mh : Int} {seen : List String} {c : Candidate}
    (h : candStep mw mh seen c = CandStep.failed) : c.id = none := by
  unfold candStep at h
  split at h
  · assumption
  · next i hid =>
    split at h
    · exact absurd h (by simp)
    · split at h
      · exact absurd h (by simp)
      · split at h
        · exact absurd h (by simp)
        · split at h
          · exact absurd h (by simp)
          · split at h
            · exact absurd h (by simp)
            · split at h <;> exact absurd h (by simp)

theorem candStep_eq_failedSeen {mw mh : Int} {seen : List String} {c : Candidate} {i : String}
    (h : candStep mw mh seen c = CandStep.failedSeen i) : c.id = some i ∧ i ∉ seen := by
  unfold candStep at h
  split at h
  · exact absurd h (by simp)
  · next j hid =>
    split at h
    · exact absurd h (by simp)
    · next hj =>
      split at h
      · obtain rfl : j = i := by injection h
        exact ⟨hid, hj⟩
      · split at h
        · exact absurd h (by simp)
        · split at h
          · obtain rfl : j = i := by injection h
            exact ⟨hid, hj⟩
          · split at h
            · exact absurd h (by simp)
            · split at h
              · exact absurd h (by simp)
              · obtain rfl : j = i := by injection h
                exact ⟨hid, hj⟩

theorem candStep_eq_rejected {mw mh : Int} {seen : List String} {c : Candidate} {i : String}
    (h : candStep mw mh seen c = CandStep.rejected i) :
    c.id = some i ∧ i ∉ seen ∧
      ((∃ w, c.width = some w ∧ w < mw) ∨
        (∃ w hv, c.width = some w ∧ ¬ w < mw ∧ c.height = some hv ∧ hv < mh)) := by
  unfold candStep at h
  split at h
  · exact absurd h (by simp)
  · next j hid =>
    split at h
    · exact absurd h (by simp)
    · next hj =>
      split at h
      · exact absurd h (by simp)
      · next w hw =>
        split at h
        · obtain rfl : j = i := by injection h
          exact ⟨hid, hj, Or.inl ⟨w, hw, by assumption⟩⟩
        · next hnw =>
          split at h
          · exact absurd h (by simp)
          · next hv hh =>
            split at h
            · obtain rfl : j = i := by injection h
              exact ⟨hid, hj, Or.inr ⟨w, hv, hw, hnw, hh, by assumption⟩⟩
            · split at h
              · exact absurd h (by simp)
              · exact absurd h (by simp)

theorem candStep_eq_accepted {mw mh : Int} {seen : List String} {c : Candidate} {i : String}
    {r : ImageRecord} (h : candStep mw mh seen c = CandStep.accepted i r) :
    c.id = some i ∧ i ∉ seen ∧ r.id = i ∧ c.width = some r.width ∧ c.height = some r.height ∧
      ¬ r.width < mw ∧ ¬ r.height < mh := by
  unfold candStep at h
  split at h
  · exact absurd h (by simp)
  · next j hid =>
    split at h
    · exact absurd h (by simp)
    · next hj =>
      split at h
      · exact absurd h (by simp)
      · next w hw =>
        split at h
        · exact absurd h (by simp)
        · next hnw =>
          split at h
          · exact absurd h (by simp)
          · next hv hh =>
            split at h
            · exact absurd h (by simp)
            · next hnh =>
              split at h
              · next u fu ru co lk hu hf hr hc hl =>
                obtain ⟨rfl, rfl⟩ : j = i ∧
                    (⟨j, u, fu, ru, w, hv, c.alt_description.getD "", co, lk⟩ : ImageRecord) = r := by
                  constructor
                  · injection h
                  · injection h
                exact ⟨hid, hj, rfl, hw, hh, hnw, hnh⟩
              · exact absurd h (by simp)

theorem candStep_accepts {mw mh : Int} {seen : List String} {c : Candidate} {i u fu ru : String}
    {w hv : Int} {co : String} {lk : Int} (hid : c.id = some i) (hi : i ∉ seen)
    (hw : c.width = some w) (hnw : ¬ w < mw) (hh : c.height = some hv) (hnh : ¬ hv < mh)
    (hu : c.urls_regular = some u) (hf : c.urls_full = some fu) (hr : c.urls_raw = some ru)
    (hc : c.color = some co) (hl : c.likes = some lk) :
    candStep mw mh seen c =
      CandStep.accepted i ⟨i, u, fu, ru, w, hv, c.alt_description.getD "", co, lk⟩ := by
  simp [candStep, hid, hi, hw, hnw, hh, hnh, hu, hf, hr, hc, hl]

theorem dimRejected_eq_false {mw mh : Int} {c : Candidate} {w hv : Int}
    (hw : c.width = some w) (hnw : ¬ w < mw) (hh : c.height = some hv) (hnh : ¬ hv < mh) :
    dimRejected mw mh c = false := by
  simp [dimRejected, hw, hnw, hh, hnh]

/-! ### Lemmas about the scan functions -/

theorem mem_markSeen_of_mem {seen : List String} {s : String} (l : List Candidate)
    (h : s ∈ seen) : s ∈ markSeen seen l := by
  induction l generalizing seen with
  | nil => simpa [markSeen] using h
  | cons c rest ih =>
    cases hid : c.id with
    | none => simpa [markSeen, hid] using ih h
    | some i =>
      by_cases hi : i ∈ seen
      · simpa [markSeen, hid, hi] using ih h
      · simpa [markSeen, hid, hi] using ih (List.mem_cons_of_mem _ h)

theorem mem_markSeen_of_id {seen : List String} {s : String} {l : List Candidate}
    (h : ∃ c ∈ l, c.id = some s) : s ∈ markSeen seen l := by
  induction l generalizing seen with
  | nil => simp at h
  | cons c rest ih =>
    rcases h with ⟨c', hc', hcs⟩
    rcases List.mem_cons.mp hc' with rfl | hmem
    · by_cases hi : s ∈ seen
      · simpa [markSeen, hcs, hi] using mem_markSeen_of_mem rest hi
      · simpa [markSeen, hcs, hi] using
          mem_markSeen_of_mem rest (List.mem_cons_self s seen)
    · cases hid : c.id with
      | none => simpa [markSeen, hid] using ih ⟨c', hmem, hcs⟩
      | some i =>
        by_cases hi : i ∈ seen
        · simpa [markSeen, hid, hi] using ih ⟨c', hmem, hcs⟩
        · simpa [markSeen, hid, hi] using ih ⟨c', hmem, hcs⟩

theorem markSeen_append (seen : List String) (xs ys : List Candidate) :
    markSeen seen (xs ++ ys) = markSeen (markSeen seen xs) ys := by
  induction xs generalizing seen with
  | nil => simp [markSeen]
  | cons c rest ih =>
    cases hid : c.id with
    | none => simp [markSeen, hid, ih]
    | some i =>
      by_cases hi : i ∈ seen <;> simp [markSeen, hid, hi, ih]

theorem newQualifyingCount_append (mw mh : Int) (seen : List String) (xs ys : List Candidate) :
    newQualifyingCount mw mh seen (xs ++ ys) =
      newQualifyingCount mw mh seen xs + newQualifyingCount mw mh (markSeen seen xs) ys := by
  induction xs generalizing seen with
  | nil => simp [newQualifyingCount, markSeen]
  | cons c rest ih =>
    cases hid : c.id with
    | none => simp [newQualifyingCount, markSeen, hid, ih]
    | some i =>
      by_cases hi : i ∈ seen
      · simp [newQualifyingCount, markSeen, hid, hi, ih]
      · cases hw : c.width with
        | none => simp [newQualifyingCount, markSeen, hid, hi, hw, ih]
        | some w =>
          by_cases hlt : w < mw
          · simp [newQualifyingCount, markSeen, hid, hi, hw, hlt, ih]
          · cases hh : c.height with
            | none => simp [newQualifyingCount, markSeen, hid, hi, hw, hlt, hh, ih]
            | some hv =>
              by_cases hlth : hv < mh <;>
                simp [newQualifyingCount, markSeen, hid, hi, hw, hlt, hh, hlth, ih,
                  Nat.add_assoc]

theorem firstSeenIds_append (seen : List String) (xs ys : List Candidate) :
    firstSeenIds seen (xs ++ ys) =
      firstSeenIds seen xs ++ firstSeenIds (markSeen seen xs) ys := by
  induction xs generalizing seen with
  | nil => simp [firstSeenIds, markSeen]
  | cons c rest ih =>
    cases hid : c.id with
    | none => simp [firstSeenIds, markSeen, hid, ih]
    | some i =>
      by_cases hi : i ∈ seen <;> simp [firstSeenIds, markSeen, hid, hi, ih]

theorem firstOccDimRejected_append_of_mem {mw mh : Int} {xs : List Candidate} {i : String}
    (ys : List Candidate) (h : ∃ c ∈ xs, c.id = some i) :
    firstOccDimRejected mw mh (xs ++ ys) i = firstOccDimRejected mw mh xs i := by
  induction xs with
  | nil => simp at h
  | cons c rest ih =>
    by_cases hc : c.id = some i
    · simp [firstOccDimRejected, hc]
    · rcases h with ⟨c', hc', hcs⟩
      rcases List.mem_cons.mp hc' with rfl | hmem
      · exact absurd hcs hc
      · simp [firstOccDimRejected, hc, ih ⟨c', hmem, hcs⟩]

theorem firstOccDimRejected_append_of_not_mem {mw mh : Int} {xs : List Candidate} {i : String}
    (ys : List Candidate) (h : ¬ ∃ c ∈ xs, c.id = some i) :
    firstOccDimRejected mw mh (xs ++ ys) i = firstOccDimRejected mw mh ys i := by
  induction xs with
  | nil => simp
  | cons c rest ih =>
    have hc : ¬ c.id = some i := fun hcc => h ⟨c, List.mem_cons_self c rest, hcc⟩
    have ht : ¬ ∃ c' ∈ rest, c'.id = some i := by
      rintro ⟨c', hm, hs⟩
      exact h ⟨c', List.mem_cons_of_mem _ hm, hs⟩
    simp [firstOccDimRejected, hc, ih ht]

/-! ### Structural invariants of `processResults` -/

/-- Master invariant of the per-page loop: processing a candidate list
appends some block `ds` of records to `images`; every appended record
passes the dimension filter, carries a previously-unseen id that ends
up in the final `seen_ids` and stems from some candidate of the page;
the appended ids are pairwise distinct; `seen_ids` only grows, and only
by ids occurring on the page; `new_images` counts the appended records;
and the appended ids respect first-seen order. -/
theorem processResults_spec (mw mh : Int) (mx : Nat) (l : List Candidate)
    (images : List ImageRecord) (seen : List String) (n : Nat) :
    ∃ ds : List ImageRecord,
      (processResults mw mh mx l images seen n).images = images ++ ds ∧
      (∀ r ∈ ds, ¬ r.width < mw ∧ ¬ r.height < mh ∧ r.id ∉ seen ∧
        r.id ∈ (processResults mw mh mx l images seen n).seen ∧ ∃ c ∈ l, c.id = some r.id) ∧
      (ds.map ImageRecord.id).Nodup ∧
      (∀ s ∈ seen, s ∈ (processResults mw mh mx l images seen n).seen) ∧
      (∀ s ∈ (processResults mw mh mx l images seen n).seen, s ∈ seen ∨ ∃ c ∈ l, c.id = some s) ∧
      (processResults mw mh mx l images seen n).new_images = n + ds.length ∧
      (images.length < mx → (processResults mw mh mx l images seen n).images.length ≤ mx) ∧
      List.Sublist (ds.map ImageRecord.id) (firstSeenIds seen l) := by
  induction l generalizing images seen n with
  | nil =>
    simp only [processResults]
    exact ⟨[], by simp, by simp, by simp, fun s hs => hs, fun s hs => Or.inl hs, by simp,
      fun h => Nat.le_of_lt h, by simp [firstSeenIds]⟩
  | cons c rest ih =>
    cases hstep : candStep mw mh seen c with
    | dup =>
      obtain ⟨j, hid, hj⟩ := candStep_eq_dup hstep
      have hfs : firstSeenIds seen (c :: rest) = firstSeenIds seen rest := by
        simp [firstSeenIds, hid, hj]
      simp only [processResults, hstep]
      obtain ⟨ds, h1, h2, h3, h4, h5, h6, h7, h8⟩ := ih images seen n
      refine ⟨ds, h1, ?_, h3, h4, ?_, h6, h7, ?_⟩
      · intro r hr
        obtain ⟨d1, d2, d3, d4, c', hc', hcs⟩ := h2 r hr
        exact ⟨d1, d2, d3, d4, c', List.mem_cons_of_mem _ hc', hcs⟩
      · intro s hs
        rcases h5 s hs with hs' | ⟨c', hc', hcs⟩
        · exact Or.inl hs'
        · exact Or.inr ⟨c', List.mem_cons_of_mem _ hc', hcs⟩
      · rw [hfs]
        exact h8
    | rejected j =>
      obtain ⟨hid, hj, -⟩ := candStep_eq_rejected hstep
      have hfs : firstSeenIds seen (c :: rest) = j :: firstSeenIds (j :: seen) rest := by
        simp [firstSeenIds, hid, hj]
      simp only [processResults, hstep]
      obtain ⟨ds, h1, h2, h3, h4, h5, h6, h7, h8⟩ := ih images (j :: seen) n
      refine ⟨ds, h1, ?_, h3, ?_, ?_, h6, h7, ?_⟩
      · intro r hr
        obtain ⟨d1, d2, d3, d4, c', hc', hcs⟩ := h2 r hr
        exact ⟨d1, d2, fun hm => d3 (List.mem_cons_of_mem _ hm), d4,
          c', List.mem_cons_of_mem _ hc', hcs⟩
      · intro s hs
        exact h4 s (List.mem_cons_of_mem _ hs)
      · intro s hs
        rcases h5 s hs with hs' | ⟨c', hc', hcs⟩
        · rcases List.mem_cons.mp hs' with rfl | hss
          · exact Or.inr ⟨c, List.mem_cons_self c rest, hid⟩
          · exact Or.inl hss
        · exact Or.inr ⟨c', List.mem_cons_of_mem _ hc', hcs⟩
      · rw [hfs]
        exact List.Sublist.cons j h8
    | accepted j r =>
      obtain ⟨hid, hj, hrid, hw, hh, hnw, hnh⟩ := candStep_eq_accepted hstep
      have hfs : firstSeenIds seen (c :: rest) = j :: firstSeenIds (j :: seen) rest := by
        simp [firstSeenIds, hid, hj]
      simp only [processResults, hstep]
      by_cases hcap : mx ≤ (images ++ [r]).length
      · simp only [if_pos hcap]
        refine ⟨[r], rfl, ?_, by simp, ?_, ?_, by simp, ?_, ?_⟩
        · intro r' hr'
          obtain rfl : r' = r := by simpa using hr'
          refine ⟨hnw, hnh, ?_, ?_, c, List.mem_cons_self c rest, ?_⟩
          · rw [hrid]; exact hj
          · simp [hrid]
          · rw [hrid]; exact hid
        · intro s hs
          exact List.mem_cons_of_mem _ hs
        · intro s hs
          rcases List.mem_cons.mp hs with rfl | hss
          · exact Or.inr ⟨c, List.mem_cons_self c rest, hid⟩
          · exact Or.inl hss
        · intro hlen
          rw [List.length_append, List.length_singleton]
          rw [List.length_append, List.length_singleton] at hcap
          omega
        · rw [hfs]
          simp only [List.map_singleton, hrid]
          exact List.Sublist.cons₂ j (List.nil_sublist (firstSeenIds (j :: seen) rest))
      · simp only [if_neg hcap]
        obtain ⟨ds, h1, h2, h3, h4, h5, h6, h7, h8⟩ := ih (images ++ [r]) (j :: seen) (n + 1)
        have hjr : r.id ∈ (processResults mw mh mx rest (images ++ [r]) (j :: seen) (n + 1)).seen := by
          apply h4
          rw [hrid]
          exact List.mem_cons_self j seen
        refine ⟨r :: ds, ?_, ?_, ?_, ?_, ?_, ?_, ?_, ?_⟩
        · rw [h1, List.append_assoc, List.singleton_append]
        · intro r' hr'
          rcases List.mem_cons.mp hr' with rfl | hrr
          · refine ⟨hnw, hnh, ?_, hjr, c, List.mem_cons_self c rest, ?_⟩
            · rw [hrid]; exact hj
            · rw [hrid]; exact hid
          · obtain ⟨d1, d2, d3, d4, c', hc', hcs⟩ := h2 r' hrr
            exact ⟨d1, d2, fun hm => d3 (List.mem_cons_of_mem _ hm), d4,
              c', List.mem_cons_of_mem _ hc', hcs⟩
        · rw [List.map_cons, List.nodup_cons]
          refine ⟨?_, h3⟩
          intro hmem
          obtain ⟨r', hr', hre⟩ := List.mem_map.mp hmem
          obtain ⟨-, -, d3, -, -⟩ := h2 r' hr'
          apply d3
          rw [hre, hrid]
          exact List.mem_cons_self j seen
        · intro s hs
          exact h4 s (List.mem_cons_of_mem _ hs)
        · intro s hs
          rcases h5 s hs with hs' | ⟨c', hc', hcs⟩
          · rcases List.mem_cons.mp hs' with rfl | hss
            · exact Or.inr ⟨c, List.mem_cons_self c rest, hid⟩
            · exact Or.inl hss
          · exact Or.inr ⟨c', List.mem_cons_of_mem _ hc', hcs⟩
        · rw [h6, List.length_cons]
          omega
        · intro _
          apply h7
          rw [List.length_append, List.length_singleton]
          rw [List.length_append, List.length_singleton] at hcap
          omega
        · rw [hfs]
          simpa [hrid] using List.Sublist.cons₂ j h8
    | failed =>
      simp only [processResults, hstep]
      exact ⟨[], by simp, by simp, by simp, fun s hs => hs, fun s hs => Or.inl hs, by simp,
        fun h => Nat.le_of_lt h, List.nil_sublist _⟩
    | failedSeen j =>
      obtain ⟨hid, hj⟩ := candStep_eq_failedSeen hstep
      simp only [processResults, hstep]
      refine ⟨[], by simp, by simp, by simp, ?_, ?_, by simp,
        fun h => Nat.le_of_lt h, List.nil_sublist _⟩
      · intro s hs
        exact List.mem_cons_of_mem _ hs
      · intro s hs
        rcases List.mem_cons.mp hs with rfl | hss
        · exact Or.inr ⟨c, List.mem_cons_self c rest, hid⟩
        · exact Or.inl hss

/-- On a page processed to completion without an exception and without
reaching the cap, `new_images` grows by exactly the number of distinct,
previously-unseen, dimension-passing candidates of the page, and the
final `seen_ids` is the scan of the whole page. -/
theorem processResults_count (mw mh : Int) (mx : Nat) (l : List Candidate)
    (images : List ImageRecord) (seen : List String) (n : Nat)
    (herr : (processResults mw mh mx l images seen n).errored = false)
    (hlen : (processResults mw mh mx l images seen n).images.length < mx) :
    (processResults mw mh mx l images seen n).new_images =
      n + newQualifyingCount mw mh seen l ∧
    (processResults mw mh mx l images seen n).seen = markSeen seen l := by
  induction l generalizing images seen n with
  | nil =>
    refine ⟨?_, ?_⟩ <;> simp [processResults, newQualifyingCount, markSeen]
  | cons c rest ih =>
    cases hstep : candStep mw mh seen c with
    | dup =>
      obtain ⟨j, hid, hj⟩ := candStep_eq_dup hstep
      simp only [processResults, hstep] at herr hlen ⊢
      rw [show newQualifyingCount mw mh seen (c :: rest) = newQualifyingCount mw mh seen rest by
          simp [newQualifyingCount, hid, hj],
        show markSeen seen (c :: rest) = markSeen seen rest by simp [markSeen, hid, hj]]
      exact ih images seen n herr hlen
    | rejected j =>
      obtain ⟨hid, hj, hdim⟩ := candStep_eq_rejected hstep
      simp only [processResults, hstep] at herr hlen ⊢
      have hcount : newQualifyingCount mw mh seen (c :: rest) =
          newQualifyingCount mw mh (j :: seen) rest := by
        rcases hdim with ⟨w, hw, hlt⟩ | ⟨w, hv, hw, hnw, hh, hlt⟩
        · simp [newQualifyingCount, hid, hj, hw, hlt]
        · simp [newQualifyingCount, hid, hj, hw, hnw, hh, hlt]
      rw [hcount, show markSeen seen (c :: rest) = markSeen (j :: seen) rest by
        simp [markSeen, hid, hj]]
      exact ih images (j :: seen) n herr hlen
    | accepted j r =>
      obtain ⟨hid, hj, hrid, hw, hh, hnw, hnh⟩ := candStep_eq_accepted hstep
      have hcount : newQualifyingCount mw mh seen (c :: rest) =
          1 + newQualifyingCount mw mh (j :: seen) rest := by
        simp [newQualifyingCount, hid, hj, hw, hnw, hh, hnh]
      have hmark : markSeen seen (c :: rest) = markSeen (j :: seen) rest := by
        simp [markSeen, hid, hj]
      simp only [processResults, hstep] at herr hlen ⊢
      by_cases hcap : mx ≤ (images ++ [r]).length
      · rw [if_pos hcap] at hlen
        exact absurd hlen (not_lt.mpr hcap)
      · rw [if_neg hcap] at herr hlen ⊢
        obtain ⟨e1, e2⟩ := ih (images ++ [r]) (j :: seen) (n + 1) herr hlen
        rw [hcount, hmark]
        exact ⟨by rw [e1]; omega, e2⟩
    | failed =>
      simp only [processResults, hstep] at herr
      exact absurd herr (by simp)
    | failedSeen j =>
      simp only [processResults, hstep] at herr
      exact absurd herr (by simp)

/-! ### Structural invariants of `scrapeLoop` -/

/-- When the accumulated count has already reached the cap, the loop
condition fails immediately: nothing is fetched. -/
theorem scrapeLoop_cap_entry (mw mh : Int) (mx : Nat) (pages : List PageOutcome)
    (images : List ImageRecord) (seen : List String) (h : mx ≤ images.length) :
    scrapeLoop mw mh mx pages images seen = ⟨images, seen, .cap, 0⟩ := by
  cases pages with
  | nil => simp [scrapeLoop, h]
  | cons p rest => simp [scrapeLoop, h]

/-- Master invariant of the run loop: the run appends a block `ds` of
records; every appended record passes the dimension filter, carries a
previously-unseen id that is recorded in the final `seen_ids`; the
appended ids are pairwise distinct; `seen_ids` only grows; the cap is
never exceeded; and the appended ids are a sublist of the ids of the
consumed candidate stream in first-seen order. -/
theorem scrapeLoop_spec (mw mh : Int) (mx : Nat) (pages : List PageOutcome)
    (images : List ImageRecord) (seen : List String) :
    ∃ ds : List ImageRecord,
      (scrapeLoop mw mh mx pages images seen).images = images ++ ds ∧
      (∀ r ∈ ds, ¬ r.width < mw ∧ ¬ r.height < mh ∧ r.id ∉ seen ∧
        r.id ∈ (scrapeLoop mw mh mx pages images seen).seen) ∧
      (ds.map ImageRecord.id).Nodup ∧
      (∀ s ∈ seen, s ∈ (scrapeLoop mw mh mx pages images seen).seen) ∧
      (images.length ≤ mx → (scrapeLoop mw mh mx pages images seen).images.length ≤ mx) ∧
      List.Sublist (ds.map ImageRecord.id)
        (firstSeenIds seen
          (streamOf (pages.take (scrapeLoop mw mh mx pages images seen).consumed))) := by
  induction pages generalizing images seen with
  | nil =>
    by_cases hcap : mx ≤ images.length
    · rw [scrapeLoop_cap_entry mw mh mx [] images seen hcap]
      exact ⟨[], by simp, by simp, by simp, fun s hs => hs, fun h => h,
        by simp [streamOf, firstSeenIds]⟩
    · simp only [scrapeLoop, if_neg hcap]
      exact ⟨[], by simp, by simp, by simp, fun s hs => hs, fun h => h,
        by simp [streamOf, firstSeenIds]⟩
  | cons p rest ih =>
    by_cases hcap : mx ≤ images.length
    · rw [scrapeLoop_cap_entry mw mh mx (p :: rest) images seen hcap]
      exact ⟨[], by simp, by simp, by simp, fun s hs => hs, fun h => h,
        by simp [streamOf, firstSeenIds]⟩
    · cases p with
      | err =>
        simp only [scrapeLoop, if_neg hcap]
        exact ⟨[], by simp, by simp, by simp, fun s hs => hs, fun h => h,
          by simp [streamOf, pageCands, firstSeenIds]⟩
      | page op =>
        match op with
        | none =>
          simp only [scrapeLoop, if_neg hcap]
          exact ⟨[], by simp, by simp, by simp, fun s hs => hs, fun h => h,
            by simp [streamOf, pageCands, firstSeenIds]⟩
        | some [] =>
          simp only [scrapeLoop, if_neg hcap]
          exact ⟨[], by simp, by simp, by simp, fun s hs => hs, fun h => h,
            by simp [streamOf, pageCands, firstSeenIds]⟩
        | some (c :: cs) =>
          simp only [scrapeLoop, if_neg hcap]
          obtain ⟨ds1, p1, p2, p3, p4, p5, p6, p7, p8⟩ :=
            processResults_spec mw mh mx (c :: cs) images seen 0
          by_cases herr : (processResults mw mh mx (c :: cs) images seen 0).errored = true
          · rw [if_pos herr]
            refine ⟨ds1, p1, ?_, p3, p4, fun _ => p7 (not_le.mp hcap), ?_⟩
            · exact fun r hr => ⟨(p2 r hr).1, (p2 r hr).2.1, (p2 r hr).2.2.1, (p2 r hr).2.2.2.1⟩
            · simpa [streamOf, pageCands] using p8
          · rw [if_neg herr]
            by_cases hnew : (processResults mw mh mx (c :: cs) images seen 0).new_images = 0
            · rw [if_pos hnew]
              refine ⟨ds1, p1, ?_, p3, p4, fun _ => p7 (not_le.mp hcap), ?_⟩
              · exact fun r hr => ⟨(p2 r hr).1, (p2 r hr).2.1, (p2 r hr).2.2.1, (p2 r hr).2.2.2.1⟩
              · simpa [streamOf, pageCands] using p8
            · rw [if_neg hnew]
              by_cases hcap2 :
                  mx ≤ (processResults mw mh mx (c :: cs) images seen 0).images.length
              · rw [scrapeLoop_cap_entry mw mh mx rest _ _ hcap2]
                refine ⟨ds1, p1, ?_, p3, p4, fun _ => p7 (not_le.mp hcap), ?_⟩
                · exact fun r hr =>
                    ⟨(p2 r hr).1, (p2 r hr).2.1, (p2 r hr).2.2.1, (p2 r hr).2.2.2.1⟩
                · simpa [streamOf, pageCands] using p8
              · obtain ⟨ds2, q1, q2, q3, q4, q5, q6⟩ :=
                  ih (processResults mw mh mx (c :: cs) images seen 0).images
                    (processResults mw mh mx (c :: cs) images seen 0).seen
                have herr' : (processResults mw mh mx (c :: cs) images seen 0).errored = false :=
                  by simpa using herr
                have hmark :=
                  (processResults_count mw mh mx (c :: cs) images seen 0 herr'
                    (not_le.mp hcap2)).2
                refine ⟨ds1 ++ ds2, ?_, ?_, ?_, ?_, ?_, ?_⟩
                · rw [q1, p1, List.append_assoc]
                · intro r hr
                  rcases List.mem_append.mp hr with hr' | hr'
                  · obtain ⟨d1, d2, d3, d4, -⟩ := p2 r hr'
                    exact ⟨d1, d2, d3, q4 r.id d4⟩
                  · obtain ⟨d1, d2, d3, d4⟩ := q2 r hr'
                    exact ⟨d1, d2, fun hm => d3 (p4 r.id hm), d4⟩
                · rw [List.map_append]
                  refine List.Nodup.append p3 q3 ?_
                  intro a ha1 ha2
                  obtain ⟨r1, hr1, hre1⟩ := List.mem_map.mp ha1
                  obtain ⟨r2, hr2, hre2⟩ := List.mem_map.mp ha2
                  obtain ⟨-, -, -, d4, -⟩ := p2 r1 hr1
                  obtain ⟨-, -, d3, -⟩ := q2 r2 hr2
                  exact d3 (by rw [hre2, ← hre1]; exact d4)
                · exact fun s hs => q4 s (p4 s hs)
                · exact fun _ => q5 (p7 (not_le.mp hcap))
                · simp only [List.take_succ_cons, streamOf, pageCands, List.map_append]
                  rw [firstSeenIds_append, ← hmark]
                  exact List.Sublist.append p8 q6

/-- A run that stops neither at the cap nor with an error has strictly
fewer records than the cap, and its record count is exactly the number
of distinct, previously-unseen, dimension-passing candidates of the
consumed candidate stream. -/
theorem scrapeLoop_count (mw mh : Int) (mx : Nat) (pages : List PageOutcome)
    (images : List ImageRecord) (seen : List String)
    (hstop1 : (scrapeLoop mw mh mx pages images seen).stop ≠ .cap)
    (hstop2 : (scrapeLoop mw mh mx pages images seen).stop ≠ .error) :
    (scrapeLoop mw mh mx pages images seen).images.length < mx ∧
    (scrapeLoop mw mh mx pages images seen).images.length =
      images.length + newQualifyingCount mw mh seen
        (streamOf (pages.take (scrapeLoop mw mh mx pages images seen).consumed)) := by
  induction pages generalizing images seen with
  | nil =>
    by_cases hcap : mx ≤ images.length
    · rw [scrapeLoop_cap_entry mw mh mx [] images seen hcap] at hstop1
      exact absurd rfl hstop1
    · simp only [scrapeLoop, if_neg hcap]
      exact ⟨not_le.mp hcap, by simp [streamOf, newQualifyingCount]⟩
  | cons p rest ih =>
    by_cases hcap : mx ≤ images.length
    · rw [scrapeLoop_cap_entry mw mh mx (p :: rest) images seen hcap] at hstop1
      exact absurd rfl hstop1
    · cases p with
      | err =>
        simp only [scrapeLoop, if_neg hcap] at hstop2
        exact absurd rfl hstop2
      | page op =>
        match op with
        | none =>
          simp only [scrapeLoop, if_neg hcap]
          exact ⟨not_le.mp hcap, by simp [streamOf, pageCands, newQualifyingCount]⟩
        | some [] =>
          simp only [scrapeLoop, if_neg hcap]
          exact ⟨not_le.mp hcap, by simp [streamOf, pageCands, newQualifyingCount]⟩
        | some (c :: cs) =>
          simp only [scrapeLoop, if_neg hcap] at hstop1 hstop2 ⊢
          by_cases herr : (processResults mw mh mx (c :: cs) images seen 0).errored = true
          · rw [if_pos herr] at hstop2
            exact absurd rfl hstop2
          · rw [if_neg herr] at hstop1 hstop2 ⊢
            have herr' : (processResults mw mh mx (c :: cs) images seen 0).errored = false :=
              by simpa using herr
            obtain ⟨ds1, p1, -, -, -, -, p6, -, -⟩ :=
              processResults_spec mw mh mx (c :: cs) images seen 0
            by_cases hnew : (processResults mw mh mx (c :: cs) images seen 0).new_images = 0
            · rw [if_pos hnew] at hstop1 hstop2 ⊢
              have hds : ds1 = [] := by
                rw [hnew] at p6
                exact List.eq_nil_of_length_eq_zero (by omega)
              have himg : (processResults mw mh mx (c :: cs) images seen 0).images = images := by
                rw [p1, hds, List.append_nil]
              have hlen : (processResults mw mh mx (c :: cs) images seen 0).images.length < mx :=
                by rw [himg]; exact not_le.mp hcap
              obtain ⟨e1, -⟩ := processResults_count mw mh mx (c :: cs) images seen 0 herr' hlen
              have hzero : newQualifyingCount mw mh seen (c :: cs) = 0 := by omega
              constructor
              · exact hlen
              · simp only [List.take_succ_cons, List.take_zero, streamOf, pageCands,
                  List.append_nil, himg, hzero]
                omega
            · rw [if_neg hnew] at hstop1 hstop2 ⊢
              by_cases hcap2 :
                  mx ≤ (processResults mw mh mx (c :: cs) images seen 0).images.length
              · rw [scrapeLoop_cap_entry mw mh mx rest _ _ hcap2] at hstop1
                exact absurd rfl hstop1
              · obtain ⟨g1, g2⟩ :=
                  ih (processResults mw mh mx (c :: cs) images seen 0).images
                    (processResults mw mh mx (c :: cs) images seen 0).seen hstop1 hstop2
                obtain ⟨e1, e2⟩ :=
                  processResults_count mw mh mx (c :: cs) images seen 0 herr' (not_le.mp hcap2)
                have hplen : (processResults mw mh mx (c :: cs) images seen 0).images.length =
                    images.length + (processResults mw mh mx (c :: cs) images seen 0).new_images :=
                  by rw [p1, p6, List.length_append]; omega
                refine ⟨g1, ?_⟩
                simp only [List.take_succ_cons, streamOf, pageCands]
                rw [newQualifyingCount_append, ← e2, g2, hplen, e1]
                omega

/-- A run that stops at the cap returns exactly `max_results` records
(before the final defensive truncation), provided it started within the
cap. -/
theorem scrapeLoop_cap_len (mw mh : Int) (mx : Nat) (pages : List PageOutcome)
    (images : List ImageRecord) (seen : List String) (hle : images.length ≤ mx)
    (hstop : (scrapeLoop mw mh mx pages images seen).stop = .cap) :
    (scrapeLoop mw mh mx pages images seen).images.length = mx := by
  induction pages generalizing images seen with
  | nil =>
    by_cases hcap : mx ≤ images.length
    · rw [scrapeLoop_cap_entry mw mh mx [] images seen hcap]
      exact le_antisymm hle hcap
    · simp only [scrapeLoop, if_neg hcap] at hstop
      exact absurd hstop (by simp)
  | cons p rest ih =>
    by_cases hcap : mx ≤ images.length
    · rw [scrapeLoop_cap_entry mw mh mx (p :: rest) images seen hcap]
      exact le_antisymm hle hcap
    · cases p with
      | err =>
        simp only [scrapeLoop, if_neg hcap] at hstop
        exact absurd hstop (by simp)
      | page op =>
        match op with
        | none =>
          simp only [scrapeLoop, if_neg hcap] at hstop
          exact absurd hstop (by simp)
        | some [] =>
          simp only [scrapeLoop, if_neg hcap] at hstop
          exact absurd hstop (by simp)
        | some (c :: cs) =>
          simp only [scrapeLoop, if_neg hcap] at hstop ⊢
          obtain ⟨ds1, p1, -, -, -, -, -, p7, -⟩ :=
            processResults_spec mw mh mx (c :: cs) images seen 0
          by_cases herr : (processResults mw mh mx (c :: cs) images seen 0).errored = true
          · rw [if_pos herr] at hstop
            exact absurd hstop (by simp)
          · rw [if_neg herr] at hstop ⊢
            by_cases hnew : (processResults mw mh mx (c :: cs) images seen 0).new_images = 0
            · rw [if_pos hnew] at hstop
              exact absurd hstop (by simp)
            · rw [if_neg hnew] at hstop ⊢
              exact ih (processResults mw mh mx (c :: cs) images seen 0).images
                (processResults mw mh mx (c :: cs) images seen 0).seen
                (p7 (not_le.mp hcap)) hstop

/-- A run that consumed no page stopped at the cap check or ran out of
modelled fetch outcomes. -/
theorem scrapeLoop_consumed_zero (mw mh : Int) (mx : Nat) (pages : List PageOutcome)
    (images : List ImageRecord) (seen : List String)
    (h : (scrapeLoop mw mh mx pages images seen).consumed = 0) :
    (scrapeLoop mw mh mx pages images seen).stop = .cap ∨
      (scrapeLoop mw mh mx pages images seen).stop = .outOfPages := by
  cases pages with
  | nil =>
    by_cases hcap : mx ≤ images.length
    · rw [scrapeLoop_cap_entry mw mh mx [] images seen hcap]
      exact Or.inl rfl
    · simp only [scrapeLoop, if_neg hcap]
      exact Or.inr (by trivial)
  | cons p rest =>
    by_cases hcap : mx ≤ images.length
    · rw [scrapeLoop_cap_entry mw mh mx (p :: rest) images seen hcap]
      exact Or.inl rfl
    · cases p with
      | err =>
        simp only [scrapeLoop, if_neg hcap] at h
        exact absurd h (by simp)
      | page op =>
        match op with
        | none =>
          simp only [scrapeLoop, if_neg hcap] at h
          exact absurd h (by simp)
        | some [] =>
          simp only [scrapeLoop, if_neg hcap] at h
          exact absurd h (by simp)
        | some (c :: cs) =>
          simp only [scrapeLoop, if_neg hcap] at h
          by_cases herr : (processResults mw mh mx (c :: cs) images seen 0).errored = true
          · rw [if_pos herr] at h
            exact absurd h (by simp)
          · rw [if_neg herr] at h
            by_cases hnew : (processResults mw mh mx (c :: cs) images seen 0).new_images = 0
            · rw [if_pos hnew] at h
              exact absurd h (by simp)
            · rw [if_neg hnew] at h
              exact absurd h (by simp)

/-- Within one page, if the first candidate carrying id `i` is
discarded by the dimension filter (and `i` was not seen before), then
no record with id `i` is appended while processing the page: the id is
recorded as seen at its first occurrence, before the filter fires, so
later candidates with the same id are skipped as duplicates. -/
theorem processResults_firstRejected (mw mh : Int) (mx : Nat) (l : List Candidate)
    (images : List ImageRecord) (seen : List String) (n : Nat) (i : String) (hi : i ∉ seen)
    (hrej : firstOccDimRejected mw mh l i = true) :
    ∀ r ∈ (processResults mw mh mx l images seen n).images, r.id = i → r ∈ images := by
  induction l generalizing images seen n with
  | nil =>
    simp only [processResults]
    exact fun r hr _ => hr
  | cons c rest ih =>
    cases hstep : candStep mw mh seen c with
    | dup =>
      obtain ⟨j, hid, hj⟩ := candStep_eq_dup hstep
      have hne : ¬ c.id = some i := by
        rw [hid]
        intro hji
        injection hji with hji'
        exact hi (hji' ▸ hj)
      rw [show firstOccDimRejected mw mh (c :: rest) i = firstOccDimRejected mw mh rest i by
        simp [firstOccDimRejected, hne]] at hrej
      simp only [processResults, hstep]
      exact ih images seen n hi hrej
    | rejected j =>
      obtain ⟨hid, hj, -⟩ := candStep_eq_rejected hstep
      by_cases hji : j = i
      · subst hji
        simp only [processResults, hstep]
        obtain ⟨ds, h1, h2, -, -, -, -, -, -⟩ :=
          processResults_spec mw mh mx rest images (j :: seen) n
        intro r hr hri
        rw [h1] at hr
        rcases List.mem_append.mp hr with hr' | hr'
        · exact hr'
        · obtain ⟨-, -, d3, -, -⟩ := h2 r hr'
          exact absurd (by rw [hri]; exact List.mem_cons_self j seen) d3
      · have hne : ¬ c.id = some i := by
          rw [hid]
          intro hx
          injection hx with hx'
          exact hji hx'
        rw [show firstOccDimRejected mw mh (c :: rest) i = firstOccDimRejected mw mh rest i by
          simp [firstOccDimRejected, hne]] at hrej
        simp only [processResults, hstep]
        refine ih images (j :: seen) n ?_ hrej
        intro hmem
        rcases List.mem_cons.mp hmem with he | hm
        · exact hji he.symm
        · exact hi hm
    | accepted j r0 =>
      obtain ⟨hid, hj, hrid, hw, hh, hnw, hnh⟩ := candStep_eq_accepted hstep
      by_cases hji : j = i
      · subst hji
        rw [show firstOccDimRejected mw mh (c :: rest) j = dimRejected mw mh c by
          simp [firstOccDimRejected, hid]] at hrej
        rw [dimRejected_eq_false hw hnw hh hnh] at hrej
        exact absurd hrej (by simp)
      · have hne : ¬ c.id = some i := by
          rw [hid]
          intro hx
          injection hx with hx'
          exact hji hx'
        rw [show firstOccDimRejected mw mh (c :: rest) i = firstOccDimRejected mw mh rest i by
          simp [firstOccDimRejected, hne]] at hrej
        have hnotin : i ∉ j :: seen := by
          intro hmem
          rcases List.mem_cons.mp hmem with he | hm
          · exact hji he.symm
          · exact hi hm
        simp only [processResults, hstep]
        by_cases hcap : mx ≤ (images ++ [r0]).length
        · rw [if_pos hcap]
          intro r hr hri
          rcases List.mem_append.mp hr with hr' | hr'
          · exact hr'
          · obtain rfl : r = r0 := by simpa using hr'
            exact absurd (hrid.symm.trans hri) hji
        · rw [if_neg hcap]
          intro r hr hri
          have hr2 := ih (images ++ [r0]) (j :: seen) (n + 1) hnotin hrej r hr hri
          rcases List.mem_append.mp hr2 with hr' | hr'
          · exact hr'
          · obtain rfl : r = r0 := by simpa using hr'
            exact absurd (hrid.symm.trans hri) hji
    | failed =>
      simp only [processResults, hstep]
      exact fun r hr _ => hr
    | failedSeen j =>
      simp only [processResults, hstep]
      exact fun r hr _ => hr

/-- Across the whole run: if the first occurrence, in the consumed
candidate stream, of an id that was never seen before is discarded by
the dimension filter, then no record with that id is appended by the
run. -/
theorem scrapeLoop_firstRejected (mw mh : Int) (mx : Nat) (pages : List PageOutcome)
    (images : List ImageRecord) (seen : List String) (i : String) (hi : i ∉ seen)
    (hrej : firstOccDimRejected mw mh
      (streamOf (pages.take (scrapeLoop mw mh mx pages images seen).consumed)) i = true) :
    ∀ r ∈ (scrapeLoop mw mh mx pages images seen).images, r.id = i → r ∈ images := by
  induction pages generalizing images seen with
  | nil =>
    by_cases hcap : mx ≤ images.length
    · rw [scrapeLoop_cap_entry mw mh mx [] images seen hcap]
      exact fun r hr _ => hr
    · simp only [scrapeLoop, if_neg hcap]
      exact fun r hr _ => hr
  | cons p rest ih =>
    by_cases hcap : mx ≤ images.length
    · rw [scrapeLoop_cap_entry mw mh mx (p :: rest) images seen hcap]
      exact fun r hr _ => hr
    · cases p with
      | err =>
        simp only [scrapeLoop, if_neg hcap]
        exact fun r hr _ => hr
      | page op =>
        match op with
        | none =>
          simp only [scrapeLoop, if_neg hcap]
          exact fun r hr _ => hr
        | some [] =>
          simp only [scrapeLoop, if_neg hcap]
          exact fun r hr _ => hr
        | some (c :: cs) =>
          simp only [scrapeLoop, if_neg hcap] at hrej ⊢
          by_cases herr : (processResults mw mh mx (c :: cs) images seen 0).errored = true
          · rw [if_pos herr] at hrej ⊢
            simp only [List.take_succ_cons, List.take_zero, streamOf, pageCands,
              List.append_nil] at hrej
            exact processResults_firstRejected mw mh mx (c :: cs) images seen 0 i hi hrej
          · rw [if_neg herr] at hrej ⊢
            have herr' : (processResults mw mh mx (c :: cs) images seen 0).errored = false :=
              by simpa using herr
            by_cases hnew : (processResults mw mh mx (c :: cs) images seen 0).new_images = 0
            · rw [if_pos hnew] at hrej ⊢
              simp only [List.take_succ_cons, List.take_zero, streamOf, pageCands,
                List.append_nil] at hrej
              exact processResults_firstRejected mw mh mx (c :: cs) images seen 0 i hi hrej
            · rw [if_neg hnew] at hrej ⊢
              by_cases hcap2 :
                  mx ≤ (processResults mw mh mx (c :: cs) images seen 0).images.length
              · rw [scrapeLoop_cap_entry mw mh mx rest _ _ hcap2] at hrej ⊢
                simp only [List.take_succ_cons, List.take_zero, streamOf, pageCands,
                  List.append_nil] at hrej
                exact processResults_firstRejected mw mh mx (c :: cs) images seen 0 i hi hrej
              · simp only [List.take_succ_cons, streamOf, pageCands] at hrej
                by_cases hhas : ∃ c' ∈ (c :: cs), c'.id = some i
                · rw [firstOccDimRejected_append_of_mem _ hhas] at hrej
                  have hmark :=
                    (processResults_count mw mh mx (c :: cs) images seen 0 herr'
                      (not_le.mp hcap2)).2
                  have hiseen : i ∈ (processResults mw mh mx (c :: cs) images seen 0).seen := by
                    rw [hmark]
                    exact mem_markSeen_of_id hhas
                  obtain ⟨ds2, q1, q2, -, -, -, -⟩ :=
                    scrapeLoop_spec mw mh mx rest
                      (processResults mw mh mx (c :: cs) images seen 0).images
                      (processResults mw mh mx (c :: cs) images seen 0).seen
                  intro r hr hri
                  rw [q1] at hr
                  rcases List.mem_append.mp hr with hr' | hr'
                  · exact processResults_firstRejected mw mh mx (c :: cs) images seen 0 i hi
                      hrej r hr' hri
                  · obtain ⟨-, -, d3, -⟩ := q2 r hr'
                    exact absurd (by rw [hri]; exact hiseen) d3
                · rw [firstOccDimRejected_append_of_not_mem _ hhas] at hrej
                  obtain ⟨ds1, p1, p2, -, -, p5, -, -, -⟩ :=
                    processResults_spec mw mh mx (c :: cs) images seen 0
                  have hinot : i ∉ (processResults mw mh mx (c :: cs) images seen 0).seen := by
                    intro hmm
                    rcases p5 i hmm with h' | h'
                    · exact hi h'
                    · exact hhas h'
                  intro r hr hri
                  have hrr := ih (processResults mw mh mx (c :: cs) images seen 0).images
                    (processResults mw mh mx (c :: cs) images seen 0).seen hinot hrej r hr hri
                  rw [p1] at hrr
                  rcases List.mem_append.mp hrr with hr' | hr'
                  · exact hr'
                  · obtain ⟨-, -, -, -, c', hc', hcs⟩ := p2 r hr'
                    exact absurd ⟨c', hc', by rw [hcs, hri]⟩ hhas

/-! ### Claim theorems -/

/-- C1, counterexample: with `max_results = 2`, the single fetched page
carries two distinct, previously-unseen, dimension-passing candidates
("a" and "b", so the claim's hypothesis holds with cumulative count 2),
yet the run returns only one record: candidate "b" passes the dimension
filter but its missing `urls` payload raises inside the loop and aborts
the run before a second record is accepted. -/
theorem c1_cap_counterexample :
    2 ≤ newQualifyingCount 0 0 []
        (streamOf (c1pages.take (scrape_unsplash ⟨0, 0, 2⟩ c1pages).consumed)) ∧
    (scrape_unsplash ⟨0, 0, 2⟩ c1pages).images.length ≠ 2 := by
  decide

/-- C1 (amended): for every query and every sequence of fetched pages,
the returned sequence has length at most `max_results`; and whenever
the run does not stop with an error, it has length exactly
`max_results` as soon as the cumulative number of distinct,
previously-unseen, dimension-passing candidates across the fetched
pages is at least `max_results`. -/
theorem c1_cap_respected (cfg : ScrapeConfig) (pages : List PageOutcome) :
    (scrape_unsplash cfg pages).images.length ≤ cfg.max_results ∧
    ((scrape_unsplash cfg pages).stop ≠ StopReason.error →
      cfg.max_results ≤
        newQualifyingCount cfg.min_width cfg.min_height []
          (streamOf (pages.take (scrape_unsplash cfg pages).consumed)) →
      (scrape_unsplash cfg pages).images.length = cfg.max_results) := by
  constructor
  · simp only [scrape_unsplash]
    rw [List.length_take]
    exact min_le_left _ _
  · intro hstop hcount
    simp only [scrape_unsplash] at hstop hcount ⊢
    by_cases hcap :
        (scrapeLoop cfg.min_width cfg.min_height cfg.max_results pages [] []).stop =
          StopReason.cap
    · have hlen := scrapeLoop_cap_len cfg.min_width cfg.min_height cfg.max_results pages [] []
        (by simp) hcap
      rw [List.length_take, hlen, min_self]
    · obtain ⟨g1, g2⟩ := scrapeLoop_count cfg.min_width cfg.min_height cfg.max_results
        pages [] [] hcap hstop
      exfalso
      simp only [List.length_nil] at g2
      omega

/-- C1, witness for the amended theorem: a run with cap 1 over one page
holding one qualifying candidate stops without error, has cumulative
count 1, and returns exactly 1 record. -/
theorem c1_cap_respected_witness :
    (scrape_unsplash ⟨0, 0, 1⟩ c1wpages).images.length ≤ 1 ∧
    (scrape_unsplash ⟨0, 0, 1⟩ c1wpages).images.length = 1 :=
  ⟨(c1_cap_respected ⟨0, 0, 1⟩ c1wpages).1,
    (c1_cap_respected ⟨0, 0, 1⟩ c1wpages).2 (by decide) (by decide)⟩

/-- C2: in every run, no two returned records share an id, and an id
whose first occurrence in the consumed candidate stream is discarded by
the dimension filter never appears among the returned records (its id
was recorded as seen before the filter fired, so later candidates with
that id are skipped as duplicates rather than re-evaluated). -/
theorem c2_dedup (cfg : ScrapeConfig) (pages : List PageOutcome) :
    ((scrape_unsplash cfg pages).images.map ImageRecord.id).Nodup ∧
    (∀ i : String,
      firstOccDimRejected cfg.min_width cfg.min_height
        (streamOf (pages.take (scrape_unsplash cfg pages).consumed)) i = true →
      i ∉ (scrape_unsplash cfg pages).images.map ImageRecord.id) := by
  obtain ⟨ds, h1, h2, h3, h4, h5, h6⟩ := scrapeLoop_spec cfg.min_width cfg.min_height
    cfg.max_results pages [] []
  constructor
  · simp only [scrape_unsplash]
    rw [List.map_take]
    refine List.Nodup.sublist (List.take_sublist _ _) ?_
    rw [h1, List.nil_append]
    exact h3
  · intro i hrej hmem
    simp only [scrape_unsplash] at hrej hmem
    rw [List.map_take] at hmem
    have hmem' : i ∈ (scrapeLoop cfg.min_width cfg.min_height cfg.max_results
        pages [] []).images.map ImageRecord.id :=
      (List.take_sublist _ _).subset hmem
    obtain ⟨r, hrr, hre⟩ := List.mem_map.mp hmem'
    have hempty := scrapeLoop_firstRejected cfg.min_width cfg.min_height cfg.max_results
      pages [] [] i (by simp) hrej r hrr hre
    simp at hempty

/-- C2, witness: in a concrete run whose first candidate "s" is
dimension-rejected at its first occurrence, the returned ids are
pairwise distinct and "s" is not among them. -/
theorem c2_dedup_witness :
    ((scrape_unsplash ⟨100, 100, 5⟩ c2wpages).images.map ImageRecord.id).Nodup ∧
    "s" ∉ (scrape_unsplash ⟨100, 100, 5⟩ c2wpages).images.map ImageRecord.id :=
  ⟨(c2_dedup ⟨100, 100, 5⟩ c2wpages).1,
    (c2_dedup ⟨100, 100, 5⟩ c2wpages).2 "s" (by decide)⟩

/-- C3, counterexample: with minimum dimensions 100x100, page 1's only
candidate carries the previously-unseen id "s" but is discarded by the
dimension filter; contrary to the claim, the run stops by exhaustion
after page 1 (`new_images` counts only accepted records) and never
fetches page 2, returning nothing. -/
theorem c3_exhaustion_counterexample :
    (scrape_unsplash ⟨100, 100, 5⟩ c3pages).stop = StopReason.exhaustion ∧
    (scrape_unsplash ⟨100, 100, 5⟩ c3pages).consumed = 1 ∧
    (scrape_unsplash ⟨100, 100, 5⟩ c3pages).images = [] := by
  decide

/-- C3 (amended): the run stops by exhaustion right after a fetched
page exactly when the page's result list is nonempty, its processing
raises no exception, and it produced zero new accepted records — where
a previously-unseen candidate counts as new only if it also passes the
dimension filter, so a page whose unseen candidates are all
dimension-filtered does trigger exhaustion. -/
theorem c3_exhaustion_amended (mw mh : Int) (mx : Nat) (l : List Candidate)
    (rest : List PageOutcome) (images : List ImageRecord) (seen : List String)
    (hlen : images.length < mx) :
    ((scrapeLoop mw mh mx (PageOutcome.page (some l) :: rest) images seen).stop =
        StopReason.exhaustion ∧
      (scrapeLoop mw mh mx (PageOutcome.page (some l) :: rest) images seen).consumed = 1) ↔
    (l ≠ [] ∧ (processResults mw mh mx l images seen 0).errored = false ∧
      (processResults mw mh mx l images seen 0).new_images = 0) := by
  cases l with
  | nil =>
    simp only [scrapeLoop, if_neg (not_le.mpr hlen)]
    constructor
    · rintro ⟨h, -⟩
      exact absurd h (by simp)
    · rintro ⟨h, -⟩
      exact absurd rfl h
  | cons c cs =>
    simp only [scrapeLoop, if_neg (not_le.mpr hlen)]
    by_cases herr : (processResults mw mh mx (c :: cs) images seen 0).errored = true
    · rw [if_pos herr]
      constructor
      · rintro ⟨h, -⟩
        exact absurd h (by simp)
      · rintro ⟨-, h2, -⟩
        rw [herr] at h2
        exact absurd h2 (by simp)
    · rw [if_neg herr]
      by_cases hnew : (processResults mw mh mx (c :: cs) images seen 0).new_images = 0
      · rw [if_pos hnew]
        constructor
        · intro
          exact ⟨by simp, by simpa using herr, hnew⟩
        · intro
          exact ⟨rfl, rfl⟩
      · rw [if_neg hnew]
        constructor
        · rintro ⟨h1, h2⟩
          have h1' : (scrapeLoop mw mh mx rest
              (processResults mw mh mx (c :: cs) images seen 0).images
              (processResults mw mh mx (c :: cs) images seen 0).seen).stop =
                StopReason.exhaustion := h1
          have h2' : (scrapeLoop mw mh mx rest
              (processResults mw mh mx (c :: cs) images seen 0).images
              (processResults mw mh mx (c :: cs) images seen 0).seen).consumed + 1 = 1 := h2
          have hc0 : (scrapeLoop mw mh mx rest
              (processResults mw mh mx (c :: cs) images seen 0).images
              (processResults mw mh mx (c :: cs) images seen 0).seen).consumed = 0 := by omega
          rcases scrapeLoop_consumed_zero mw mh mx rest _ _ hc0 with hx | hx <;>
            rw [h1'] at hx <;> exact absurd hx (by simp)
        · rintro ⟨-, -, h3⟩
          exact absurd h3 hnew

/-- C3, witness for the amended theorem: a nonempty page whose only
unseen candidate is dimension-filtered (no exception, zero accepted
records) makes the run stop by exhaustion after that page. -/
theorem c3_exhaustion_amended_witness :
    (scrapeLoop 100 100 5 [PageOutcome.page (some [fullCand "s" "u" 50 50])] [] []).stop =
        StopReason.exhaustion ∧
    (scrapeLoop 100 100 5 [PageOutcome.page (some [fullCand "s" "u" 50 50])] [] []).consumed =
      1 :=
  (c3_exhaustion_amended 100 100 5 [fullCand "s" "u" 50 50] [] [] [] (by decide)).mpr
    (by decide)

/-- C4, counterexample: page 1's middle candidate lacks the `likes`
key; the claim says only that candidate is skipped and that "c" and
page 2's "d" are still collected, but the run stops with an error after
page 1 keeping only "a": the missing key raises a `KeyError` that the
outer `except` handler turns into a `break` of the whole loop. -/
theorem c4_skip_counterexample :
    (scrape_unsplash ⟨0, 0, 10⟩ c4pages).stop = StopReason.error ∧
    (scrape_unsplash ⟨0, 0, 10⟩ c4pages).consumed = 1 ∧
    (scrape_unsplash ⟨0, 0, 10⟩ c4pages).images.map ImageRecord.id = ["a"] := by
  decide

/-- C4 (amended): a candidate with a missing expected field aborts the
whole run rather than just being skipped: the run stops with an error,
keeps exactly the records accepted before the raising candidate
(including earlier candidates of the same page), and processes no
further candidate and no further page. -/
theorem c4_error_aborts (mw mh : Int) (mx : Nat) (l : List Candidate)
    (rest : List PageOutcome) (images : List ImageRecord) (seen : List String)
    (hlen : images.length < mx)
    (herr : (processResults mw mh mx l images seen 0).errored = true) :
    scrapeLoop mw mh mx (PageOutcome.page (some l) :: rest) images seen =
      ⟨(processResults mw mh mx l images seen 0).images,
        (processResults mw mh mx l images seen 0).seen, StopReason.error, 1⟩ := by
  cases l with
  | nil => simp [processResults] at herr
  | cons c cs =>
    simp only [scrapeLoop, if_neg (not_le.mpr hlen)]
    rw [if_pos herr]

/-- C4, witness for the amended theorem: the concrete page of the
counterexample aborts the run with an error while keeping the record
accepted before the bad candidate. -/
theorem c4_error_aborts_witness :
    scrapeLoop 0 0 10
        (PageOutcome.page (some c4badPage) ::
          [PageOutcome.page (some [fullCand "d" "u" 10 10])]) [] [] =
      ⟨(processResults 0 0 10 c4badPage [] [] 0).images,
        (processResults 0 0 10 c4badPage [] [] 0).seen, StopReason.error, 1⟩ :=
  c4_error_aborts 0 0 10 c4badPage [PageOutcome.page (some [fullCand "d" "u" 10 10])] [] []
    (by decide) (by decide)

/-- C5: the collector never propagates a fetch failure.  In any state
still within the cap, a failing fetch makes the run return exactly the
records accumulated so far, with the error reported as the stop reason;
in particular a transport error on page 1 yields the empty result.
(The embedding is a total function by construction: every exception
path of the Python code is modelled as the caught `break`, mirroring
the `except` handler at src/app.py lines 111-113.) -/
theorem c5_never_fails :
    (∀ (mw mh : Int) (mx : Nat) (rest : List PageOutcome) (images : List ImageRecord)
      (seen : List String), images.length < mx →
      scrapeLoop mw mh mx (PageOutcome.err :: rest) images seen =
        ⟨images, seen, StopReason.error, 1⟩) ∧
    (∀ (cfg : ScrapeConfig) (rest : List PageOutcome), 0 < cfg.max_results →
      scrape_unsplash cfg (PageOutcome.err :: rest) = ⟨[], [], StopReason.error, 1⟩) := by
  have hgen : ∀ (mw mh : Int) (mx : Nat) (rest : List PageOutcome) (images : List ImageRecord)
      (seen : List String), images.length < mx →
      scrapeLoop mw mh mx (PageOutcome.err :: rest) images seen =
        ⟨images, seen, StopReason.error, 1⟩ := by
    intro mw mh mx rest images seen hlen
    simp [scrapeLoop, not_le.mpr hlen]
  refine ⟨hgen, ?_⟩
  intro cfg rest hmax
  simp only [scrape_unsplash]
  rw [hgen cfg.min_width cfg.min_height cfg.max_results rest [] [] (by simpa using hmax)]
  simp

/-- C5, witness: a transport error on page 1 of a concrete run returns
zero records with the error stop. -/
theorem c5_never_fails_witness :
    scrapeLoop 0 0 3 [PageOutcome.err] [] [] = ⟨[], [], StopReason.error, 1⟩ ∧
    scrape_unsplash ⟨0, 0, 3⟩ [PageOutcome.err] = ⟨[], [], StopReason.error, 1⟩ :=
  ⟨c5_never_fails.1 0 0 3 [] [] [] (by decide), c5_never_fails.2 ⟨0, 0, 3⟩ [] (by decide)⟩

/-- C6: a fetched page whose decoded payload has no `results` field
(`page none`) or an empty `results` list (`page (some [])`) stops the
run with the empty-page stop, contributes zero records, and no further
page is fetched. -/
theorem c6_empty_page_stop (mw mh : Int) (mx : Nat) (rest : List PageOutcome)
    (images : List ImageRecord) (seen : List String) (hlen : images.length < mx) :
    scrapeLoop mw mh mx (PageOutcome.page none :: rest) images seen =
      ⟨images, seen, StopReason.emptyPage, 1⟩ ∧
    scrapeLoop mw mh mx (PageOutcome.page (some []) :: rest) images seen =
      ⟨images, seen, StopReason.emptyPage, 1⟩ := by
  constructor <;> simp [scrapeLoop, not_le.mpr hlen]

/-- C6, witness: an empty page 1, in both payload shapes, stops a
concrete run immediately with nothing collected. -/
theorem c6_empty_page_stop_witness :
    scrapeLoop 0 0 4 [PageOutcome.page none] [] [] =
      ⟨[], [], StopReason.emptyPage, 1⟩ ∧
    scrapeLoop 0 0 4 [PageOutcome.page (some [])] [] [] =
      ⟨[], [], StopReason.emptyPage, 1⟩ :=
  ⟨(c6_empty_page_stop 0 0 4 [] [] [] (by decide)).1,
    (c6_empty_page_stop 0 0 4 [] [] [] (by decide)).2⟩

/-- C7: for any minimum dimensions at least 0, no returned record has
width below `min_width` or height below `min_height`. -/
theorem c7_filter_correct (cfg : ScrapeConfig) (pages : List PageOutcome)
    (_hw : 0 ≤ cfg.min_width) (_hh : 0 ≤ cfg.min_height) :
    ∀ r ∈ (scrape_unsplash cfg pages).images,
      ¬ (r.width < cfg.min_width ∨ r.height < cfg.min_height) := by
  intro r hr
  simp only [scrape_unsplash] at hr
  have hr' : r ∈ (scrapeLoop cfg.min_width cfg.min_height cfg.max_results
      pages [] []).images :=
    (List.take_sublist _ _).subset hr
  obtain ⟨ds, h1, h2, -, -, -, -⟩ := scrapeLoop_spec cfg.min_width cfg.min_height
    cfg.max_results pages [] []
  rw [h1, List.nil_append] at hr'
  obtain ⟨d1, d2, -, -⟩ := h2 r hr'
  rintro (hx | hx)
  · exact d1 hx
  · exact d2 hx

/-- C7, witness: the record returned by a concrete run with minimums
1x1 satisfies the filter. -/
theorem c7_filter_correct_witness :
    ¬ (c7rec.width < (1 : Int) ∨ c7rec.height < (1 : Int)) :=
  c7_filter_correct ⟨1, 1, 5⟩ [PageOutcome.page (some [fullCand "a" "u" 10 10])]
    (by decide) (by decide) c7rec (by decide)

/-- C8: the ids of the returned records form, in order, a sublist of
the ids of the consumed candidate stream listed in first-seen order
(pages in fetch order, candidates in page order): the output order is
the first-seen order of the accepted ids. -/
theorem c8_order_preserved (cfg : ScrapeConfig) (pages : List PageOutcome) :
    List.Sublist ((scrape_unsplash cfg pages).images.map ImageRecord.id)
      (firstSeenIds []
        (streamOf (pages.take (scrape_unsplash cfg pages).consumed))) := by
  obtain ⟨ds, h1, -, -, -, -, h6⟩ := scrapeLoop_spec cfg.min_width cfg.min_height
    cfg.max_results pages [] []
  simp only [scrape_unsplash]
  rw [List.map_take]
  refine List.Sublist.trans (List.take_sublist _ _) ?_
  rw [h1, List.nil_append]
  exact h6

/-- C9: when appending an accepted record makes the accumulated count
reach exactly `max_results`, the page loop stops at once: whatever the
remaining candidates of the page are, the result is already determined,
no further record is appended, and no further id is added to
`seen_ids`. -/
theorem c9_cap_early_exit (mw mh : Int) (mx : Nat) (c : Candidate) (rest : List Candidate)
    (images : List ImageRecord) (seen : List String) (n : Nat) (i u fu ru : String)
    (w hv : Int) (co : String) (lk : Int)
    (hid : c.id = some i) (hi : i ∉ seen) (hw : c.width = some w) (hnw : ¬ w < mw)
    (hh : c.height = some hv) (hnh : ¬ hv < mh) (hu : c.urls_regular = some u)
    (hf : c.urls_full = some fu) (hr : c.urls_raw = some ru) (hc : c.color = some co)
    (hl : c.likes = some lk) (hcap : images.length + 1 = mx) :
    processResults mw mh mx (c :: rest) images seen n =
      ⟨images ++ [⟨i, u, fu, ru, w, hv, c.alt_description.getD "", co, lk⟩], i :: seen,
        n + 1, false⟩ := by
  have hstep := candStep_accepts hid hi hw hnw hh hnh hu hf hr hc hl
  have hcond : mx ≤ (images ++
      [(⟨i, u, fu, ru, w, hv, c.alt_description.getD "", co, lk⟩ : ImageRecord)]).length := by
    rw [List.length_append, List.length_singleton]
    omega
  simp only [processResults, hstep, if_pos hcond]

/-- C9, witness: with cap 1, accepting "a" ends the page immediately;
the trailing candidate "z" contributes nothing and its id is not
recorded as seen. -/
theorem c9_cap_early_exit_witness :
    processResults 0 0 1 [fullCand "a" "u" 10 10, fullCand "z" "u" 10 10] [] [] 0 =
      ⟨[c7rec], ["a"], 1, false⟩ :=
  c9_cap_early_exit 0 0 1 (fullCand "a" "u" 10 10) [fullCand "z" "u" 10 10] [] [] 0
    "a" "u" "u" "u" 10 10 "u" 3 (by decide) (by decide) (by decide) (by decide) (by decide)
    (by decide) (by decide) (by decide) (by decide) (by decide) (by decide) (by decide)

/-- C10: a candidate that passes deduplication and the dimension filter
but lacks `alt_description` is still accepted — the record is built
with the empty string as alt text via `result.get('alt_description',
'')` — and processing continues exactly as for a complete candidate:
the missing key alone never skips the candidate or stops the run. -/
theorem c10_missing_alt (mw mh : Int) (mx : Nat) (c : Candidate) (rest : List Candidate)
    (images : List ImageRecord) (seen : List String) (n : Nat) (i u fu ru : String)
    (w hv : Int) (co : String) (lk : Int)
    (hid : c.id = some i) (hi : i ∉ seen) (hw : c.width = some w) (hnw : ¬ w < mw)
    (hh : c.height = some hv) (hnh : ¬ hv < mh) (hu : c.urls_regular = some u)
    (hf : c.urls_full = some fu) (hr : c.urls_raw = some ru) (hc : c.color = some co)
    (hl : c.likes = some lk) (halt : c.alt_description = none) :
    candStep mw mh seen c = CandStep.accepted i ⟨i, u, fu, ru, w, hv, "", co, lk⟩ ∧
    processResults mw mh mx (c :: rest) images seen n =
      (if mx ≤ (images ++ [(⟨i, u, fu, ru, w, hv, "", co, lk⟩ : ImageRecord)]).length then
        ⟨images ++ [⟨i, u, fu, ru, w, hv, "", co, lk⟩], i :: seen, n + 1, false⟩
      else
        processResults mw mh mx rest (images ++ [⟨i, u, fu, ru, w, hv, "", co, lk⟩])
          (i :: seen) (n + 1)) := by
  have hstep : candStep mw mh seen c =
      CandStep.accepted i ⟨i, u, fu, ru, w, hv, "", co, lk⟩ := by
    rw [candStep_accepts hid hi hw hnw hh hnh hu hf hr hc hl, halt]
    rfl
  refine ⟨hstep, ?_⟩
  simp only [processResults, hstep]

/-- C10, witness: a concrete candidate missing only `alt_description`
is accepted with empty alt text and the run carries on. -/
theorem c10_missing_alt_witness :
    processResults 0 0 9 [noAltCand "a" "u" 10 10] [] [] 0 =
      ⟨[⟨"a", "u", "u", "u", 10, 10, "", "u", 3⟩], ["a"], 1, false⟩ :=
  ((c10_missing_alt 0 0 9 (noAltCand "a" "u" 10 10) [] [] [] 0 "a" "u" "u" "u" 10 10 "u" 3
      (by decide) (by decide) (by decide) (by decide) (by decide) (by decide) (by decide)
      (by decide) (by decide) (by decide) (by decide) (by decide)).2).trans (by decide)

end Unsplash
